/-
Verification of the cbor-diag data model and its two encoders
(annotated-hex `src/encode/hex.rs` and diagnostic `src/encode/diag.rs`)
against the natural-language specification.

Conventions of the shallow embedding:
* Rust `u64`/`u8`/`usize` values are `Nat`; theorems carry explicit range
  hypotheses where overflow matters.  `i128` arithmetic is `Int` (exact,
  since all values reached here fit far inside 128 bits).
* Rust `String` output is Lean `String`; the styled-output sink in its
  `plain` mode concatenates the written fragments and drops all styling,
  so every `fmt` method is embedded as a function returning `String`.
* Panics (`unimplemented!`, `Option::expect`) are embedded as `Option`
  results, `none` marking the panic.
* `f64` is embedded abstractly as its classification (NaN / ±infinity /
  finite) together with the `to_string` results at the three precisions,
  because no claim depends on the decimal conversion of finite floats.
-/
import Mathlib

set_option maxRecDepth 4000

namespace CborDiag

/-- Rust `IntegerWidth` from the crate root (spec §3). -/
inductive IntegerWidth where
  | Unknown
  | Zero
  | Eight
  | Sixteen
  | ThirtyTwo
  | SixtyFour
deriving DecidableEq, Repr

/-- Rust `FloatWidth` from the crate root (spec §3). -/
inductive FloatWidth where
  | Unknown
  | Sixteen
  | ThirtyTwo
  | SixtyFour
deriving DecidableEq, Repr

/-- Rust `Encoding` from `src/encode` (the byte-string display encoding). -/
inductive Encoding where
  | Base16
  | Base64
  | Base64Url
deriving DecidableEq, Repr

/-- Rust `Layout` from `src/encode/diag.rs`. -/
inductive Layout where
  | Pretty
  | Compact
deriving DecidableEq, Repr

/-! ### String helpers shared by the embeddings -/

/-- Lowercase hexadecimal digits of `n` (Rust `{:x}`); `"0"` for `0`. -/
def natToHex (n : Nat) : String :=
  String.mk (Nat.toDigits 16 n)

/-- Left-pad `s` with `'0'` to width `w` (Rust `{:0w…}`); longer values
print in full. -/
def zeroPad (w : Nat) (s : String) : String :=
  String.mk (List.replicate (w - s.data.length) '0') ++ s

/-- Rust `format!("{:0wx}", n)`. -/
def fmtHex (w n : Nat) : String := zeroPad w (natToHex n)

/-- Rust `n` spaces (Rust `format!("{:width$}", "")` and `Contextual::indent`). -/
def spaces (n : Nat) : String := String.mk (List.replicate n ' ')

/-- Rust `std::ascii::escape_default` for one byte, as characters. -/
def asciiEscapeDefault (b : Nat) : List Char :=
  if b = 9 then ['\\', 't']
  else if b = 13 then ['\\', 'r']
  else if b = 10 then ['\\', 'n']
  else if b = 92 then ['\\', '\\']
  else if b = 39 then ['\\', '\'']
  else if b = 34 then ['\\', '"']
  else if 32 ≤ b ∧ b ≤ 126 then [Char.ofNat b]
  else ['\\', 'x'] ++ (fmtHex 2 b).data

/-- Rust `hex::encode`: each byte as two lowercase hex digits. -/
def hexEncode (data : List Nat) : String :=
  String.join (data.map (fmtHex 2))

/-- Decimal rendering of a Rust signed integer (`i128` `Display`). -/
def intDec (i : Int) : String :=
  if i < 0 then "-" ++ Nat.repr i.natAbs else Nat.repr i.toNat

/-! ### Annotated-hex encoder, `src/encode/hex.rs`

The `Value` enum it consumes (from the crate root; fields per spec §3). -/

inductive Value where
  | Integer (value : Nat) (bitwidth : IntegerWidth)
  | Negative (value : Nat) (bitwidth : IntegerWidth)
  | Float (bitwidth : FloatWidth)
  | ByteString (data : List Nat) (bitwidth : Option IntegerWidth)
  | IndefiniteByteString (strings : List (List Nat × IntegerWidth))
  | TextString (data : String) (bitwidth : IntegerWidth)
  | IndefiniteTextString (strings : List (String × IntegerWidth))
  | Array (data : List Value) (bitwidth : Option IntegerWidth)
  | Map (data : List (Value × Value)) (bitwidth : Option IntegerWidth)
  | Tag (tag : Nat) (bitwidth : IntegerWidth) (value : Value)
  | Simple (value : Nat)
deriving Repr

namespace Hex

/-- The width-selection cascade shared by `integer_to_hex`,
`negative_to_hex` and `bytestring_to_hex` (the `if bitwidth == Unknown`
blocks): note the strict `<` comparisons against `u8::max_value()` etc. -/
def selectWidth (value : Nat) : IntegerWidth :=
  if value < 24 then .Zero
  else if value < 255 then .Eight
  else if value < 65535 then .Sixteen
  else if value < 4294967295 then .ThirtyTwo
  else .SixtyFour

/-- Rust `integer_to_hex` (always returns `Ok`, so plain `String`). -/
def integer_to_hex (value : Nat) (bitwidth : IntegerWidth) : String :=
  let bitwidth := if bitwidth = .Unknown then selectWidth value else bitwidth
  (match bitwidth with
    | .Unknown => ""  -- unreachable!()
    | .Zero => fmtHex 2 value
    | .Eight => "18 " ++ fmtHex 2 value
    | .Sixteen => "19 " ++ fmtHex 4 value
    | .ThirtyTwo => "1a " ++ fmtHex 8 value
    | .SixtyFour => "1b " ++ fmtHex 16 value)
  ++ " # unsigned(" ++ Nat.repr value ++ ")"

/-- Rust `negative_to_hex`. -/
def negative_to_hex (value : Nat) (bitwidth : IntegerWidth) : String :=
  let bitwidth := if bitwidth = .Unknown then selectWidth value else bitwidth
  (match bitwidth with
    | .Unknown => ""  -- unreachable!()
    | .Zero => fmtHex 2 (value + 0x20)
    | .Eight => "38 " ++ fmtHex 2 value
    | .Sixteen => "39 " ++ fmtHex 4 value
    | .ThirtyTwo => "3a " ++ fmtHex 8 value
    | .SixtyFour => "3b " ++ fmtHex 16 value)
  ++ " # negative(" ++ Nat.repr value ++ ")"

/-- One 16-byte chunk line of `bytestring_to_hex`. -/
def chunkLine (baseWidth : Nat) (line : List Nat) : String :=
  "   " ++ hexEncode line ++ spaces (baseWidth - line.length * 2)
  ++ " # \"" ++ String.mk ((line.map asciiEscapeDefault).flatten) ++ "\"\n"

/-- Rust `<[u8]>::chunks(16)`. -/
def chunks16 : List Nat → List (List Nat)
  | [] => []
  | a :: rest => (a :: rest).take 16 :: chunks16 ((a :: rest).drop 16)
termination_by l => l.length
decreasing_by
  simp only [List.length_drop, List.length_cons]
  omega

/-- Rust `bytestring_to_hex`; `none` models the
`expect("indefinite length is unimplemented")` panic on a `None`
bitwidth. -/
def bytestring_to_hex (data : List Nat) (bitwidth : Option IntegerWidth) :
    Option String := do
  let length := data.length
  let bw ← bitwidth
  let bw := if bw = .Unknown then selectWidth length else bw
  let header : String :=
    match bw with
    | .Unknown => ""  -- unreachable!()
    | .Zero => fmtHex 2 (length + 0x40) ++ " "
    | .Eight => "58 " ++ fmtHex 2 length
    | .Sixteen => "59 " ++ fmtHex 4 length
    | .ThirtyTwo => "5a " ++ fmtHex 8 length
    | .SixtyFour => "5b " ++ fmtHex 16 length
  let lengthWidth : Nat :=
    match bw with
    | .Unknown => 0  -- unreachable!()
    | .Zero => 0
    | .Eight => 2
    | .Sixteen => 4
    | .ThirtyTwo => 8
    | .SixtyFour => 16
  let dataWidth := min (data.length * 2) 32
  let baseWidth := max dataWidth lengthWidth
  let firstLine :=
    header ++ spaces (baseWidth - lengthWidth) ++ " # bytes(" ++ Nat.repr length ++ ")\n"
  let body := String.join ((chunks16 data).map (chunkLine baseWidth))
  let emptyLine :=
    if data.isEmpty then "   " ++ spaces baseWidth ++ " # \"\"\n" else ""
  pure (firstLine ++ body ++ emptyLine)

/-- Rust `simple_to_hex`.  `Simple::FALSE/TRUE/NULL/UNDEFINED` are 20/21/22/23;
the next arm is the (inclusive) Rust range pattern `Simple(24...32)`. -/
def simple_to_hex (value : Nat) : String :=
  (if value < 24 then fmtHex 2 (0b11100000 + value) ++ " # "
   else "f8 " ++ fmtHex 2 value ++ " # ")
  ++ (if value = 20 then "false, "
      else if value = 21 then "true, "
      else if value = 22 then "null, "
      else if value = 23 then "undefined, "
      else if 24 ≤ value ∧ value ≤ 32 then "reserved, "
      else "unassigned, ")
  ++ "simple(" ++ Nat.repr value ++ ")"

/-- Rust `to_hex` / `Value::to_hex`; `none` models the `unimplemented!()`
panic in the catch-all arm (and the byte-string `expect`). -/
def to_hex : Value → Option String
  | .Integer value bitwidth => some (integer_to_hex value bitwidth)
  | .Negative value bitwidth => some (negative_to_hex value bitwidth)
  | .ByteString data bitwidth => bytestring_to_hex data bitwidth
  | .Simple value => some (simple_to_hex value)
  | _ => none  -- unimplemented!()

/-- Spec-side description of when `Value::to_hex` succeeds, for claim C9:
the spec's "Integer, Negative, definite-length ByteString, Simple". -/
def ahexSupported : Value → Bool
  | .Integer _ _ => true
  | .Negative _ _ => true
  | .ByteString _ (some _) => true
  | .Simple _ => true
  | _ => false

end Hex

/-! ### Diagnostic encoder, `src/encode/diag.rs` -/

/-- Abstract embedding of `f64` (see the header comment): the
classification the encoder branches on, with the `to_string` results at
the three precisions for finite values. -/
inductive FloatVal where
  | nan
  | inf (negative : Bool)
  | finite (s64 s16 s32 : String)
deriving DecidableEq, Repr

/-- Rust `ByteString` struct from the crate root. -/
structure ByteStr where
  data : List Nat
  bitwidth : IntegerWidth
deriving DecidableEq, Repr

/-- Rust `TextString` struct from the crate root. -/
structure TextStr where
  data : String
  bitwidth : IntegerWidth
deriving DecidableEq, Repr

/-- Rust `DataItem` from the crate root (spec §3). -/
inductive DataItem where
  | Integer (value : Nat) (bitwidth : IntegerWidth)
  | Negative (value : Nat) (bitwidth : IntegerWidth)
  | Float (value : FloatVal) (bitwidth : FloatWidth)
  | ByteString (s : ByteStr)
  | IndefiniteByteString (strings : List ByteStr)
  | TextString (s : TextStr)
  | IndefiniteTextString (strings : List TextStr)
  | Array (data : List DataItem) (bitwidth : Option IntegerWidth)
  | Map (data : List (DataItem × DataItem)) (bitwidth : Option IntegerWidth)
  | Tag (tag : Nat) (bitwidth : IntegerWidth) (value : DataItem)
  | Simple (value : Nat)
deriving Repr

namespace Diag

/-- Rust `f64::to_string()` on the abstract float value (`Display`
prints `NaN`, `inf`, `-inf` for the non-finite classes). -/
def floatValToString : FloatVal → String
  | .nan => "NaN"
  | .inf true => "-inf"
  | .inf false => "inf"
  | .finite s64 _ _ => s64

/-- Rust `ByteString::estimate` (`impl LengthEstimate for ByteString`). -/
def estByteStr (bs : ByteStr) : Nat := bs.data.length * 2 + 4

/-- Rust `TextString::estimate`; Rust `String::len` is the UTF-8 byte size. -/
def estTextStr (ts : TextStr) : Nat := ts.data.utf8ByteSize + 2

/-- Rust `Simple::estimate`. -/
def estSimple (value : Nat) : Nat := (Nat.repr value).length + 8

/-- Rust `Tag::estimate` (estimate of the tag number alone). -/
def estTag (tag : Nat) : Nat := (Nat.repr tag).length + 2

/-- The estimate loop for lists of string chunks (`ByteString` /
`TextString` elements, whose own estimates ignore the max they are
passed). -/
def estScalars (est : α → Nat) : List α → Nat → Nat → Nat
  | [], _, len => len
  | x :: rest, max, len =>
    let len' := len + est x + 2
    if max ≤ len' then len' else estScalars est rest max len'

/- The recursive part of `LengthEstimate`: each container element's
estimate is taken at `max - len` and the loop short-circuits as soon as
`len >= max`.  Rust `usize` subtraction `max - len` cannot underflow
here because the loop returns first; Lean's truncated `Nat` subtraction
agrees on every reachable call. -/
mutual

/-- Rust `DataItem::estimate`. -/
def estItem : DataItem → Nat → Nat
  | .Integer value _, _ => (Nat.repr value).length + 2
  | .Negative value _, _ => (Nat.repr value).length + 3
  | .Float value _, _ => (floatValToString value).length + 3
  | .Simple value, _ => estSimple value
  | .ByteString bs, _ => estByteStr bs
  | .TextString ts, _ => estTextStr ts
  | .Array data _, max => estList data max 4
  | .Map data _, max => estPairs data max 4
  | .IndefiniteByteString strings, max =>
      estScalars estByteStr strings max 4
  | .IndefiniteTextString strings, max =>
      estScalars estTextStr strings max 4
  | .Tag tag _ value, max =>
      -- `(tag, value).estimate(max)` via `impl LengthEstimate for (T, U)`
      let len := estTag tag
      if len < max then len + estItem value (max - len) else len

/-- The `Array`/`IndefiniteByteString`/`IndefiniteTextString` loop of
`DataItem::estimate`. -/
def estList : List DataItem → Nat → Nat → Nat
  | [], _, len => len
  | item :: rest, max, len =>
    let len' := len + estItem item (max - len) + 2
    if max ≤ len' then len' else estList rest max len'

/-- The `Map` loop; each entry is estimated through
`impl LengthEstimate for (T, U)`. -/
def estPairs : List (DataItem × DataItem) → Nat → Nat → Nat
  | [], _, len => len
  | (k, v) :: rest, max, len =>
    let len' := len
      + (let l := estItem k (max - len)
         if l < max - len then l + estItem v (max - len - l) else l)
      + 2
    if max ≤ len' then len' else estPairs rest max len'

end

/-- Rust `impl LengthEstimate for (T, U)` on a map entry, as a named
function (definitionally what the `estPairs` loop computes per entry). -/
def estEntry (k v : DataItem) (max : Nat) : Nat :=
  let l := estItem k max
  if l < max then l + estItem v (max - l) else l

theorem estPairs_cons (k v : DataItem) (rest : List (DataItem × DataItem))
    (max len : Nat) :
    estPairs ((k, v) :: rest) max len
      = if max ≤ len + estEntry k v (max - len) + 2
        then len + estEntry k v (max - len) + 2
        else estPairs rest max (len + estEntry k v (max - len) + 2) := rfl

/-- Rust `is_trivial` with its `const MAX: usize = 60`. -/
def isTrivial (item : DataItem) : Bool := estItem item 60 < 60

/-- The `Contextual` record (layout, display encoding, indentation). -/
structure Ctx where
  layout : Layout
  encoding : Encoding
  indent : Nat
deriving DecidableEq, Repr

/-- Rust `Contextual::new`: the root context of `compact_diag`/`pretty_diag`. -/
def Ctx.new (layout : Layout) : Ctx :=
  { layout := layout, encoding := Encoding.Base16, indent := 0 }

/-- Width suffix written by the `Integer`/`Negative`/`Tagged` `fmt`s
(the `match self.bitwidth` giving `_0`/`_1`/`_2`/`_3`; `Unknown` and
`Zero` write none). -/
def widthSuffixI : IntegerWidth → String
  | .Eight => "_0"
  | .Sixteen => "_1"
  | .ThirtyTwo => "_2"
  | .SixtyFour => "_3"
  | .Unknown => ""
  | .Zero => ""

/-- Width suffix written by the `Float` `fmt`. -/
def widthSuffixF : FloatWidth → String
  | .Unknown => ""
  | .Sixteen => "_1"
  | .ThirtyTwo => "_2"
  | .SixtyFour => "_3"

/-- Rust `Contextual<&Integer>::fmt`. -/
def renderInteger (value : Nat) (bitwidth : IntegerWidth) : String :=
  Nat.repr value ++ widthSuffixI bitwidth

/-- Rust `Contextual<&Negative>::fmt`: `-1i128 - i128::from(value)`, exact in
`Int` for every `u64` value. -/
def renderNegative (value : Nat) (bitwidth : IntegerWidth) : String :=
  intDec (-1 - (value : Int)) ++ widthSuffixI bitwidth

/-- Rust `Contextual<&Float>::fmt`. -/
def renderFloat (value : FloatVal) (bitwidth : FloatWidth) : String :=
  (match value with
   | .nan => "NaN"
   | .inf negative => (if negative then "-" else "") ++ "Infinity"
   | .finite s64 s16 s32 =>
     let s := match bitwidth with
       | .Unknown | .SixtyFour => s64
       | .Sixteen => s16
       | .ThirtyTwo => s32
     s ++ (if ¬s.contains '.' ∧ ¬s.contains 'e' then ".0" else ""))
  ++ widthSuffixF bitwidth

/-- Rust `Contextual<&Simple>::fmt` (colors dropped by the plain sink). -/
def renderSimple (value : Nat) : String :=
  if value = 20 then "false"
  else if value = 21 then "true"
  else if value = 22 then "null"
  else if value = 23 then "undefined"
  else "simple(" ++ Nat.repr value ++ ")"

/-- The per-character escaping of `Contextual<&TextString>::fmt`:
`char::escape_default` is applied only to `"` and `\`, where it yields
a backslash followed by the character. -/
def escTChar (c : Char) : List Char :=
  if c = '"' ∨ c = '\\' then ['\\', c] else [c]

/-- Rust `Contextual<&TextString>::fmt`. -/
def renderTextStr (ts : TextStr) : String :=
  "\"" ++ String.mk ((ts.data.data.map escTChar).flatten) ++ "\""

/-- Rust `base64` crate alphabets: standard and URL-safe. -/
def b64Char (urlSafe : Bool) (n : Nat) : Char :=
  if n < 26 then Char.ofNat (65 + n)
  else if n < 52 then Char.ofNat (97 + (n - 26))
  else if n < 62 then Char.ofNat (48 + (n - 52))
  else if n = 62 then (if urlSafe then '-' else '+')
  else (if urlSafe then '_' else '/')

/-- Rust `base64` encoding without padding (`STANDARD_NO_PAD` /
`URL_SAFE_NO_PAD`). -/
def b64Encode (urlSafe : Bool) : List Nat → String
  | [] => ""
  | [b1] =>
    String.mk [b64Char urlSafe (b1 / 4), b64Char urlSafe (b1 % 4 * 16)]
  | [b1, b2] =>
    String.mk [b64Char urlSafe (b1 / 4), b64Char urlSafe (b1 % 4 * 16 + b2 / 16),
               b64Char urlSafe (b2 % 16 * 4)]
  | b1 :: b2 :: b3 :: rest =>
    String.mk [b64Char urlSafe (b1 / 4), b64Char urlSafe (b1 % 4 * 16 + b2 / 16),
               b64Char urlSafe (b2 % 16 * 4 + b3 / 64), b64Char urlSafe (b3 % 64)]
    ++ b64Encode urlSafe rest

/-- Rust `Contextual<&ByteString>::fmt`: prefix and body chosen by the
context's display encoding. -/
def renderByteStr (encoding : Encoding) (bs : ByteStr) : String :=
  (match encoding with
   | .Base64Url | .Base64 => "b64'"
   | .Base16 => "h'")
  ++ (match encoding with
      | .Base64Url => b64Encode true bs.data
      | .Base64 => b64Encode false bs.data
      | .Base16 => hexEncode bs.data)
  ++ "'"

/-- Rust `Contextual<&Container>::fmt`, over the already-rendered elements
(the loop only interleaves separators and indentation around
`this.wrap(item).fmt(f)`; elements are rendered by the caller at the
bumped indentation `with_indent(if trivial { 0 } else { 4 })`). -/
def containerFmt (ctx : Ctx) (bgn fin : String) (definite trivial : Bool)
    (rendered : List String) : String :=
  let thisIndent := ctx.indent + (if trivial then 0 else 4)
  bgn
  ++ (if definite then ""
      else "_" ++ (if trivial ∧ ctx.layout = .Pretty then " " else ""))
  ++ (match rendered with
      | [] => ""
      | r :: rs =>
        (if ctx.layout = .Pretty ∧ ¬trivial
         then "\n" ++ spaces thisIndent else "")
        ++ r
        ++ String.join (rs.map fun r' =>
             "," ++ (if ctx.layout = .Pretty then
                       (if trivial then " " else "\n" ++ spaces thisIndent)
                     else "")
             ++ r'))
  ++ (if ctx.layout = .Pretty ∧ ¬trivial
      then "," ++ "\n" ++ spaces ctx.indent else "")
  ++ fin

/-- Rust `Contextual::with_indent` composed with `wrap`: the context the
container's elements are rendered in. -/
def bump (ctx : Ctx) (trivial : Bool) : Ctx :=
  { ctx with indent := ctx.indent + (if trivial then 0 else 4) }

/-- Rust `Tag::ENCODED_BASE64URL`, `ENCODED_BASE64`, `ENCODED_BASE16`. -/
def tagEncodedBase64Url : Nat := 21
def tagEncodedBase64 : Nat := 22
def tagEncodedBase16 : Nat := 23

mutual

/-- Rust `Contextual<&DataItem>::fmt` (with the `Tagged` and `Container`
`fmt`s inlined at their only call sites). -/
def renderItem (ctx : Ctx) : DataItem → String
  | .Integer value bitwidth => renderInteger value bitwidth
  | .Negative value bitwidth => renderNegative value bitwidth
  | .Float value bitwidth => renderFloat value bitwidth
  | .Simple value => renderSimple value
  | .TextString ts => renderTextStr ts
  | .ByteString bs => renderByteStr ctx.encoding bs
  | .Array data bitwidth =>
    let trivial := isTrivial (.Array data bitwidth)
    containerFmt ctx "[" "]" bitwidth.isSome trivial
      (renderList (bump ctx trivial) data)
  | .Map data bitwidth =>
    let trivial := isTrivial (.Map data bitwidth)
    containerFmt ctx "\x7b" "\x7d" bitwidth.isSome trivial
      (renderPairs (bump ctx trivial) data)
  | .IndefiniteByteString strings =>
    let trivial := isTrivial (.IndefiniteByteString strings)
    containerFmt ctx "(" ")" false trivial
      (strings.map (renderByteStr ctx.encoding))
  | .IndefiniteTextString strings =>
    let trivial := isTrivial (.IndefiniteTextString strings)
    containerFmt ctx "(" ")" false trivial (strings.map renderTextStr)
  | .Tag tag bitwidth value =>
    Nat.repr tag ++ widthSuffixI bitwidth ++ "("
    ++ (if tag = tagEncodedBase64Url then
          renderItem { ctx with encoding := .Base64Url } value
        else if tag = tagEncodedBase64 then
          renderItem { ctx with encoding := .Base64 } value
        else if tag = tagEncodedBase16 then
          renderItem { ctx with encoding := .Base16 } value
        else renderItem ctx value)
    ++ ")"

/-- The container loop's element renderings for arrays. -/
def renderList (ctx : Ctx) : List DataItem → List String
  | [] => []
  | item :: rest => renderItem ctx item :: renderList ctx rest

/-- The container loop's element renderings for maps
(`Contextual<&(DataItem, DataItem)>::fmt` per entry). -/
def renderPairs (ctx : Ctx) : List (DataItem × DataItem) → List String
  | [] => []
  | (k, v) :: rest =>
    (renderItem ctx k ++ ":" ++ (if ctx.layout = .Pretty then " " else "")
     ++ renderItem ctx v)
    :: renderPairs ctx rest

end

/-- Characters that render as themselves inside a text string, keep the
output on one line, and weigh at least one estimator byte: not `"` or
`\` (which the renderer escapes to two characters) and not a newline. -/
def goodText (s : String) : Bool :=
  s.data.all fun c => c ≠ '"' ∧ c ≠ '\\' ∧ c ≠ '\n'

mutual

/-- The fragment of `DataItem` on which the estimator is a true upper
bound for the pretty-rendered length (claim C2, amended): integers,
simples, base-16 byte strings of genuine bytes, escape-free text
strings, arrays and indefinite strings.  Excluded because their
rendering can exceed their estimate: `Negative` (digit growth of
`-1-value`), `Float` (`Infinity` estimates as `inf`), `Map` (the `": "`
per entry), `Tag` (suffix and parentheses). -/
def good : DataItem → Bool
  | .Integer _ _ => true
  | .Simple _ => true
  | .ByteString bs => bs.data.all (· < 256)
  | .TextString ts => goodText ts.data
  | .Array data _ => goodList data
  | .IndefiniteByteString strings =>
      strings.all fun bs => bs.data.all (· < 256)
  | .IndefiniteTextString strings => strings.all fun ts => goodText ts.data
  | .Negative _ _ => false
  | .Float _ _ => false
  | .Map _ _ => false
  | .Tag _ _ _ => false

def goodList : List DataItem → Bool
  | [] => true
  | item :: rest => good item && goodList rest

end

/-- Rust `DataItem::compact_diag` through the plain sink. -/
def compact_diag (item : DataItem) : String :=
  renderItem (Ctx.new .Compact) item

/-- Rust `DataItem::pretty_diag` through the plain sink. -/
def pretty_diag (item : DataItem) : String :=
  renderItem (Ctx.new .Pretty) item

end Diag

/-! ### Helper lemmas and spec-side forms -/

/-- Strings with equal character data are equal. -/
theorem str_ext {a b : String} (h : a.data = b.data) : a = b := by
  cases a; cases b; cases h; rfl

theorem data_mk (l : List Char) : (String.mk l).data = l := rfl

/-- Spec-side form for claim C5: "elements separated by `sep`". -/
def sepJoin (sep : String) : List String → String
  | [] => ""
  | [x] => x
  | x :: y :: rest => x ++ sep ++ sepJoin sep (y :: rest)

/-- Spec-side form for claim C7: "each element on its own line indented
by `pad`, with a trailing comma after the last element". -/
def lineItems (pad : String) : List String → String
  | [] => ""
  | x :: rest => "\n" ++ pad ++ x ++ "," ++ lineItems pad rest

theorem join_sep (sep r : String) (rs : List String) :
    r ++ String.join (rs.map fun r' => sep ++ r') = sepJoin sep (r :: rs) := by
  induction rs generalizing r with
  | nil => apply str_ext; simp [sepJoin]
  | cons y ys ih =>
    show _ = r ++ sep ++ sepJoin sep (y :: ys)
    rw [← ih y]
    apply str_ext
    simp [String.data_append, String.data_join, List.map_map,
      List.append_assoc, Function.comp]

theorem join_lines (pad r : String) (rs : List String) :
    ("\n" ++ pad ++ r)
      ++ (String.join (rs.map fun r' => "," ++ ("\n" ++ pad) ++ r') ++ ",")
      = lineItems pad (r :: rs) := by
  induction rs generalizing r with
  | nil => apply str_ext; simp [lineItems]
  | cons y ys ih =>
    show _ = "\n" ++ pad ++ r ++ "," ++ lineItems pad (y :: ys)
    rw [← ih y]
    apply str_ext
    simp [String.data_append, String.data_join, List.map_map,
      List.append_assoc, Function.comp]

theorem containerFmt_compact (e : Encoding) (i : Nat) (bgn fin : String)
    (d t : Bool) (rendered : List String) :
    Diag.containerFmt ⟨.Compact, e, i⟩ bgn fin d t rendered
      = bgn ++ (if d then "" else "_") ++ sepJoin "," rendered ++ fin := by
  cases rendered with
  | nil => cases d <;> (apply str_ext; simp [Diag.containerFmt, sepJoin])
  | cons r rs =>
    rw [← join_sep]
    apply str_ext
    cases d <;>
      simp [Diag.containerFmt, String.data_append, String.data_join,
        List.map_map, Function.comp, List.append_assoc]

theorem containerFmt_pretty_trivial (e : Encoding) (i : Nat)
    (bgn fin : String) (d : Bool) (rendered : List String) :
    Diag.containerFmt ⟨.Pretty, e, i⟩ bgn fin d true rendered
      = bgn ++ (if d then "" else "_ ") ++ sepJoin ", " rendered ++ fin := by
  cases rendered with
  | nil => cases d <;> (apply str_ext; simp [Diag.containerFmt, sepJoin])
  | cons r rs =>
    rw [← join_sep]
    apply str_ext
    cases d <;>
      simp [Diag.containerFmt, String.data_append, String.data_join,
        List.map_map, Function.comp, List.append_assoc]

theorem containerFmt_pretty_nontrivial (e : Encoding) (i : Nat)
    (bgn fin : String) (d : Bool) (r : String) (rs : List String) :
    Diag.containerFmt ⟨.Pretty, e, i⟩ bgn fin d false (r :: rs)
      = bgn ++ (if d then "" else "_")
        ++ lineItems (spaces (i + 4)) (r :: rs)
        ++ ("\n" ++ spaces i) ++ fin := by
  rw [← join_lines]
  apply str_ext
  cases d <;>
    simp [Diag.containerFmt, String.data_append, String.data_join,
      List.map_map, Function.comp, List.append_assoc]

/-! ### Stability of the estimator in its max argument

If an estimate comes in strictly below its max, then no short-circuit
fired and the same value is returned for any larger max.  This is what
lets us move between the max the container loop passes to a child
(`max - len`) and the fresh `MAX = 60` used when the child is rendered. -/

theorem estScalars_stable (est : α → Nat) (xs : List α) (m M len : Nat)
    (hm : m ≤ M) (h : Diag.estScalars est xs m len < m) :
    Diag.estScalars est xs M len = Diag.estScalars est xs m len := by
  induction xs generalizing len with
  | nil => rfl
  | cons x rest ih =>
    simp only [Diag.estScalars] at h ⊢
    by_cases hc : m ≤ len + est x + 2
    · rw [if_pos hc] at h; omega
    · rw [if_neg hc] at h
      rw [if_neg (by omega), if_neg hc, ih _ h]

mutual

theorem estItem_stable (item : DataItem) (m M : Nat) (hm : m ≤ M)
    (h : Diag.estItem item m < m) :
    Diag.estItem item M = Diag.estItem item m := by
  cases item with
  | Integer v bw => rfl
  | Negative v bw => rfl
  | Float v bw => rfl
  | Simple v => rfl
  | ByteString bs => rfl
  | TextString ts => rfl
  | IndefiniteByteString ss => exact estScalars_stable _ ss m M 4 hm h
  | IndefiniteTextString ss => exact estScalars_stable _ ss m M 4 hm h
  | Array data bw => exact estList_stable data m M 4 hm h
  | Map data bw => exact estPairs_stable data m M 4 hm h
  | Tag tag bw v =>
    simp only [Diag.estItem] at h ⊢
    by_cases hl : Diag.estTag tag < m
    · rw [if_pos hl] at h
      have hv : Diag.estItem v (m - Diag.estTag tag)
          < m - Diag.estTag tag := by omega
      rw [if_pos (Nat.lt_of_lt_of_le hl hm), if_pos hl,
        estItem_stable v (m - Diag.estTag tag) (M - Diag.estTag tag)
          (Nat.sub_le_sub_right hm _) hv]
    · rw [if_neg hl] at h; omega
termination_by sizeOf item

theorem estList_stable (items : List DataItem) (m M len : Nat) (hm : m ≤ M)
    (h : Diag.estList items m len < m) :
    Diag.estList items M len = Diag.estList items m len := by
  cases items with
  | nil => rfl
  | cons item rest =>
    simp only [Diag.estList] at h ⊢
    by_cases hc : m ≤ len + Diag.estItem item (m - len) + 2
    · rw [if_pos hc] at h; omega
    · rw [if_neg hc] at h
      have he : Diag.estItem item (m - len) < m - len := by omega
      rw [estItem_stable item (m - len) (M - len)
        (Nat.sub_le_sub_right hm _) he]
      rw [if_neg (by omega), if_neg hc]
      exact estList_stable rest m M _ hm h
termination_by sizeOf items

theorem estEntry_stable (k v : DataItem) (m M : Nat) (hm : m ≤ M)
    (h : Diag.estEntry k v m < m) :
    Diag.estEntry k v M = Diag.estEntry k v m := by
  simp only [Diag.estEntry] at h ⊢
  by_cases hk : Diag.estItem k m < m
  · rw [if_pos hk] at h
    have hv : Diag.estItem v (m - Diag.estItem k m)
        < m - Diag.estItem k m := by omega
    have hk' := estItem_stable k m M hm hk
    rw [hk', if_pos (by omega), if_pos hk,
      estItem_stable v (m - Diag.estItem k m) (M - Diag.estItem k m)
        (Nat.sub_le_sub_right hm _) hv]
  · rw [if_neg hk] at h; omega
termination_by 1 + sizeOf k + sizeOf v

theorem estPairs_stable :
    ∀ (pairs : List (DataItem × DataItem)) (m M len : Nat), m ≤ M →
      Diag.estPairs pairs m len < m →
      Diag.estPairs pairs M len = Diag.estPairs pairs m len
  | [], _, _, _, _, _ => rfl
  | (k, v) :: rest, m, M, len, hm, h => by
    rw [Diag.estPairs_cons] at h
    rw [Diag.estPairs_cons, Diag.estPairs_cons]
    by_cases hc : m ≤ len + Diag.estEntry k v (m - len) + 2
    · rw [if_pos hc] at h; omega
    · rw [if_neg hc] at h
      have he : Diag.estEntry k v (m - len) < m - len := by omega
      rw [estEntry_stable k v (m - len) (M - len)
        (Nat.sub_le_sub_right hm _) he]
      rw [if_neg (by omega), if_neg hc]
      exact estPairs_stable rest m M _ hm h
termination_by pairs => sizeOf pairs

end

/-! ### Character and length facts for the rendered fragments -/

theorem digitChar_ne_newline (k : Nat) : Nat.digitChar k ≠ '\n' := by
  by_cases hk : k < 16
  · have : ∀ x, x < 16 → Nat.digitChar x ≠ '\n' := by decide
    exact this k hk
  · unfold Nat.digitChar
    rw [if_neg (show ¬ k = 0 by omega), if_neg (show ¬ k = 1 by omega),
      if_neg (show ¬ k = 2 by omega), if_neg (show ¬ k = 3 by omega),
      if_neg (show ¬ k = 4 by omega), if_neg (show ¬ k = 5 by omega),
      if_neg (show ¬ k = 6 by omega), if_neg (show ¬ k = 7 by omega),
      if_neg (show ¬ k = 8 by omega), if_neg (show ¬ k = 9 by omega),
      if_neg (show ¬ k = 10 by omega), if_neg (show ¬ k = 11 by omega),
      if_neg (show ¬ k = 12 by omega), if_neg (show ¬ k = 13 by omega),
      if_neg (show ¬ k = 14 by omega), if_neg (show ¬ k = 15 by omega)]
    decide

theorem toDigitsCore_mem (b : Nat) :
    ∀ (fuel n : Nat) (ds : List Char) (c : Char),
      c ∈ Nat.toDigitsCore b fuel n ds → c ∈ ds ∨ ∃ k, c = Nat.digitChar k
  | 0, _, _, _, hc => Or.inl hc
  | fuel + 1, n, ds, c, hc => by
    rw [show Nat.toDigitsCore b (fuel + 1) n ds
        = if n / b = 0 then Nat.digitChar (n % b) :: ds
          else Nat.toDigitsCore b fuel (n / b) (Nat.digitChar (n % b) :: ds)
        from rfl] at hc
    by_cases hnb : n / b = 0
    · rw [if_pos hnb] at hc
      rcases List.mem_cons.mp hc with h | h
      · exact Or.inr ⟨n % b, h⟩
      · exact Or.inl h
    · rw [if_neg hnb] at hc
      rcases toDigitsCore_mem b fuel (n / b) _ c hc with h | h
      · rcases List.mem_cons.mp h with h' | h'
        · exact Or.inr ⟨n % b, h'⟩
        · exact Or.inl h'
      · exact Or.inr h

theorem repr_char_ne_newline (n : Nat) (c : Char)
    (hc : c ∈ (Nat.repr n).data) : c ≠ '\n' := by
  have : c ∈ Nat.toDigits 10 n := hc
  rcases toDigitsCore_mem 10 _ _ _ _ this with h | ⟨k, hk⟩
  · simp at h
  · exact hk ▸ digitChar_ne_newline k

theorem natToHex_char_ne_newline (n : Nat) (c : Char)
    (hc : c ∈ (natToHex n).data) : c ≠ '\n' := by
  have : c ∈ Nat.toDigits 16 n := hc
  rcases toDigitsCore_mem 16 _ _ _ _ this with h | ⟨k, hk⟩
  · simp at h
  · exact hk ▸ digitChar_ne_newline k

theorem natToHex_len_le_two (b : Nat) (hb : b < 256) :
    (natToHex b).data.length ≤ 2 := by
  have : ∀ x, x < 256 → (natToHex x).data.length ≤ 2 := by decide
  exact this b hb

theorem fmtHex2_length (b : Nat) (hb : b < 256) :
    (fmtHex 2 b).length = 2 := by
  have h2 := natToHex_len_le_two b hb
  have h1 : 1 ≤ (natToHex b).data.length := by
    have : ∀ x, x < 256 → 1 ≤ (natToHex x).data.length := by decide
    exact this b hb
  show (String.mk (List.replicate (2 - (natToHex b).data.length) '0')
      ++ natToHex b).data.length = 2
  simp only [String.data_append, data_mk, List.length_append,
    List.length_replicate]
  omega

theorem fmtHex2_ne_newline (b : Nat) (c : Char)
    (hc : c ∈ (fmtHex 2 b).data) : c ≠ '\n' := by
  simp only [fmtHex, zeroPad, String.data_append, String.length,
    List.mem_append] at hc
  rcases hc with h | h
  · have := List.eq_of_mem_replicate (by simpa using h)
    subst this; decide
  · exact natToHex_char_ne_newline b c h

theorem join_length (ss : List String) :
    (String.join ss).length = (ss.map String.length).sum := by
  induction ss with
  | nil => rfl
  | cons x xs ih =>
    show (String.join (x :: xs)).length = _
    have : String.join (x :: xs) = x ++ String.join xs := by
      apply str_ext
      simp [String.data_join, String.data_append]
    rw [this, String.length_append, ih]
    simp

theorem hexEncode_length (l : List Nat) (hl : ∀ b ∈ l, b < 256) :
    (hexEncode l).length = 2 * l.length := by
  unfold hexEncode
  rw [join_length]
  induction l with
  | nil => rfl
  | cons b rest ih =>
    simp only [List.map_cons, List.sum_cons, List.length_cons]
    rw [fmtHex2_length b (hl b (by simp)), ih (fun x hx => hl x (by simp [hx]))]
    omega

theorem hexEncode_ne_newline (l : List Nat) (c : Char)
    (hc : c ∈ (hexEncode l).data) : c ≠ '\n' := by
  unfold hexEncode at hc
  rw [String.data_join] at hc
  simp only [List.map_map, List.mem_flatten, List.mem_map] at hc
  obtain ⟨cs, ⟨b, _, rfl⟩, hcc⟩ := hc
  exact fmtHex2_ne_newline b c hcc

theorem sepJoin_length (sep : String) : ∀ rs : List String,
    (sepJoin sep rs).length
      = (rs.map String.length).sum + sep.length * (rs.length - 1)
  | [] => by simp [sepJoin]
  | [x] => by simp [sepJoin]
  | x :: y :: rest => by
    have ih := sepJoin_length sep (y :: rest)
    simp only [sepJoin, String.length_append, List.map_cons, List.sum_cons,
      List.length_cons, Nat.add_sub_cancel] at ih ⊢
    rw [ih]
    ring

theorem sepJoin_mem (sep : String) : ∀ (rs : List String) (c : Char),
    c ∈ (sepJoin sep rs).data → c ∈ sep.data ∨ ∃ r ∈ rs, c ∈ r.data
  | [], c, hc => by simp [sepJoin] at hc
  | [x], c, hc => by
    refine Or.inr ⟨x, by simp, ?_⟩
    simpa [sepJoin] using hc
  | x :: y :: rest, c, hc => by
    simp only [sepJoin, String.data_append, List.mem_append] at hc
    rcases hc with (h | h) | h
    · exact Or.inr ⟨x, by simp, h⟩
    · exact Or.inl h
    · rcases sepJoin_mem sep (y :: rest) c h with h' | ⟨r, hr, hcr⟩
      · exact Or.inl h'
      · exact Or.inr ⟨r, by simp_all, hcr⟩

theorem utf8Size_go_ge : ∀ l : List Char,
    l.length ≤ String.utf8ByteSize.go l
  | [] => Nat.le_refl 0
  | c :: cs => by
    have h1 := utf8Size_go_ge cs
    have h2 := c.utf8Size_pos
    show cs.length + 1 ≤ String.utf8ByteSize.go cs + c.utf8Size
    omega

theorem data_length_le_utf8ByteSize (s : String) :
    s.data.length ≤ s.utf8ByteSize := by
  cases s with
  | mk l => exact utf8Size_go_ge l

namespace Diag

theorem escTChar_of_good (c : Char) (h1 : c ≠ '"') (h2 : c ≠ '\\') :
    escTChar c = [c] := by
  unfold escTChar
  rw [if_neg (not_or.mpr ⟨h1, h2⟩)]

theorem goodText_flatten (l : List Char)
    (h : ∀ c ∈ l, c ≠ '"' ∧ c ≠ '\\' ∧ c ≠ '\n') :
    (l.map escTChar).flatten = l := by
  induction l with
  | nil => rfl
  | cons c cs ih =>
    have hc := h c (by simp)
    simp only [List.map_cons, List.flatten_cons,
      escTChar_of_good c hc.1 hc.2.1, List.singleton_append]
    rw [ih fun x hx => h x (by simp [hx])]

theorem renderTextStr_bound (ts : TextStr) (hg : goodText ts.data = true) :
    (renderTextStr ts).length ≤ estTextStr ts
    ∧ ∀ c ∈ (renderTextStr ts).data, c ≠ '\n' := by
  have hall : ∀ c ∈ ts.data.data, c ≠ '"' ∧ c ≠ '\\' ∧ c ≠ '\n' := by
    intro c hc
    have := (List.all_eq_true.mp hg) c hc
    simpa using this
  constructor
  · show (renderTextStr ts).length ≤ ts.data.utf8ByteSize + 2
    have hle := data_length_le_utf8ByteSize ts.data
    simp only [renderTextStr, String.length_append, String.length_mk,
      goodText_flatten ts.data.data hall]
    have : ("\"" : String).length = 1 := rfl
    omega
  · intro c hc
    have q1 : ("\"" : String).data = ['"'] := rfl
    simp only [renderTextStr, String.data_append, data_mk, q1,
      goodText_flatten ts.data.data hall, List.mem_append,
      List.mem_singleton] at hc
    rcases hc with (h | h) | h
    · subst h; decide
    · exact (hall c h).2.2
    · subst h; decide

theorem renderByteStr_bound (bs : ByteStr)
    (hg : ∀ b ∈ bs.data, b < 256) :
    (renderByteStr .Base16 bs).length ≤ estByteStr bs
    ∧ ∀ c ∈ (renderByteStr .Base16 bs).data, c ≠ '\n' := by
  constructor
  · show (renderByteStr .Base16 bs).length ≤ bs.data.length * 2 + 4
    simp only [renderByteStr, String.length_append,
      hexEncode_length bs.data hg]
    have h1 : ("h'" : String).length = 2 := rfl
    have h2 : ("'" : String).length = 1 := rfl
    omega
  · intro c hc
    have q2 : ("h'" : String).data = ['h', '\''] := rfl
    have q3 : ("'" : String).data = ['\''] := rfl
    simp only [renderByteStr, String.data_append, q2, q3, List.mem_append,
      List.mem_cons, List.mem_singleton, List.not_mem_nil, or_false] at hc
    rcases hc with ((h | h) | h) | h
    · subst h; decide
    · subst h; decide
    · exact hexEncode_ne_newline bs.data c h
    · subst h; decide

theorem widthSuffixI_length (bw : IntegerWidth) :
    (widthSuffixI bw).length ≤ 2 := by cases bw <;> decide

theorem widthSuffixI_ne_newline (bw : IntegerWidth) :
    ∀ c ∈ (widthSuffixI bw).data, c ≠ '\n' := by cases bw <;> decide

theorem renderInteger_bound (v : Nat) (bw : IntegerWidth) :
    (renderInteger v bw).length ≤ (Nat.repr v).length + 2
    ∧ ∀ c ∈ (renderInteger v bw).data, c ≠ '\n' := by
  constructor
  · have := widthSuffixI_length bw
    simp only [renderInteger, String.length_append]
    omega
  · intro c hc
    simp only [renderInteger, String.data_append, List.mem_append] at hc
    rcases hc with h | h
    · exact repr_char_ne_newline v c h
    · exact widthSuffixI_ne_newline bw c h

theorem renderSimple_bound (v : Nat) :
    (renderSimple v).length ≤ estSimple v
    ∧ ∀ c ∈ (renderSimple v).data, c ≠ '\n' := by
  unfold renderSimple estSimple
  split_ifs with h20 h21 h22 h23
  · subst h20; exact ⟨by decide, by decide⟩
  · subst h21; exact ⟨by decide, by decide⟩
  · subst h22; exact ⟨by decide, by decide⟩
  · subst h23; exact ⟨by decide, by decide⟩
  · constructor
    · simp only [String.length_append]
      have h1 : ("simple(" : String).length = 7 := rfl
      have h2 : (")" : String).length = 1 := rfl
      omega
    · intro c hc
      simp only [String.data_append, List.mem_append] at hc
      rcases hc with (h | h) | h
      · have hs : ∀ x ∈ ("simple(" : String).data, x ≠ '\n' := by decide
        exact hs c h
      · exact repr_char_ne_newline v c h
      · have hs : ∀ x ∈ (")" : String).data, x ≠ '\n' := by decide
        exact hs c h

end Diag

theorem renderList_length (ctx : Diag.Ctx) : ∀ items : List DataItem,
    (Diag.renderList ctx items).length = items.length
  | [] => rfl
  | x :: xs => by
    show (Diag.renderItem ctx x :: Diag.renderList ctx xs).length = _
    simp [renderList_length ctx xs]

/-- The indefinite-string estimate loop bounds the rendered chunks, given
a per-chunk bound. -/
theorem estScalars_bound (est : α → Nat) (ren : α → String) :
    ∀ (xs : List α) (m len : Nat), (∀ x ∈ xs, (ren x).length ≤ est x) →
      Diag.estScalars est xs m len < m →
      ((xs.map ren).map String.length).sum + 2 * xs.length + len
        ≤ Diag.estScalars est xs m len
  | [], m, len, _, _ => by simp [Diag.estScalars]
  | x :: rest, m, len, hre, h => by
    simp only [Diag.estScalars] at h ⊢
    by_cases hc : m ≤ len + est x + 2
    · rw [if_pos hc] at h; exfalso; omega
    · rw [if_neg hc] at h
      rw [if_neg hc]
      have ih := estScalars_bound est ren rest m (len + est x + 2)
        (fun y hy => hre y (by simp [hy])) h
      have hx := hre x (by simp)
      simp only [List.map_cons, List.sum_cons, List.length_cons]
      omega

mutual

/-- On the `good` fragment, the pretty rendering of an item whose
estimate came in under its max is newline-free and no longer than that
estimate. -/
theorem renderItem_bound : ∀ (item : DataItem) (i m : Nat),
    Diag.good item = true → m ≤ 60 → Diag.estItem item m < m →
    (Diag.renderItem ⟨.Pretty, .Base16, i⟩ item).length ≤ Diag.estItem item m
    ∧ ∀ c ∈ (Diag.renderItem ⟨.Pretty, .Base16, i⟩ item).data, c ≠ '\n'
  | .Integer v bw, _, _, _, _, _ => Diag.renderInteger_bound v bw
  | .Simple v, _, _, _, _, _ => Diag.renderSimple_bound v
  | .TextString ts, _, _, hg, _, _ => Diag.renderTextStr_bound ts hg
  | .ByteString bs, _, _, hg, _, _ =>
    Diag.renderByteStr_bound bs (by simpa using List.all_eq_true.mp hg)
  | .Negative v bw, _, _, hg, _, _ => by simp [Diag.good] at hg
  | .Float v bw, _, _, hg, _, _ => by simp [Diag.good] at hg
  | .Map data bw, _, _, hg, _, _ => by simp [Diag.good] at hg
  | .Tag t bw v, _, _, hg, _, _ => by simp [Diag.good] at hg
  | .Array data bw, i, m, hg, hm, h => by
    have h' : Diag.estList data m 4 < m := h
    have hgl : Diag.goodList data = true := hg
    have htriv : Diag.isTrivial (.Array data bw) = true := by
      have hst := estItem_stable (.Array data bw) m 60 hm h
      simp only [Diag.isTrivial, hst, decide_eq_true_eq]
      omega
    have hre : Diag.renderItem ⟨.Pretty, .Base16, i⟩ (.Array data bw)
        = Diag.containerFmt ⟨.Pretty, .Base16, i⟩ "[" "]" bw.isSome true
            (Diag.renderList ⟨.Pretty, .Base16, i⟩ data) := by
      show Diag.containerFmt ⟨.Pretty, .Base16, i⟩ "[" "]" bw.isSome
          (Diag.isTrivial (.Array data bw))
          (Diag.renderList (Diag.bump ⟨.Pretty, .Base16, i⟩
            (Diag.isTrivial (.Array data bw))) data) = _
      rw [htriv]
      rfl
    obtain ⟨hlen, hmem⟩ := renderList_bound data i m 4 hgl hm h'
    have hs := sepJoin_length ", " (Diag.renderList ⟨.Pretty, .Base16, i⟩ data)
    have hn := renderList_length ⟨.Pretty, .Base16, i⟩ data
    have hsep : (", " : String).length = 2 := rfl
    have hmlen : (if bw.isSome then ("" : String) else "_ ").length ≤ 2 := by
      cases bw with
      | none => decide
      | some w => simp
    have hmmem : ∀ x ∈ (if bw.isSome then ("" : String) else "_ ").data,
        x ≠ '\n' := by
      cases bw with
      | none => decide
      | some w => intro x hx; simp at hx
    constructor
    · rw [hre, containerFmt_pretty_trivial]
      show _ ≤ Diag.estList data m 4
      simp only [String.length_append, hs, hn, hsep,
        show ("[" : String).length = 1 from rfl,
        show ("]" : String).length = 1 from rfl]
      omega
    · rw [hre, containerFmt_pretty_trivial]
      intro c hc
      simp only [String.data_append, List.mem_append] at hc
      rcases hc with ((h1 | h2) | h3) | h4
      · revert h1
        have hb : ∀ x ∈ ("[" : String).data, x ≠ '\n' := by decide
        exact hb c
      · exact hmmem c h2
      · rcases sepJoin_mem ", " _ c h3 with hsep' | ⟨r, hr, hcr⟩
        · revert hsep'
          have hb : ∀ x ∈ (", " : String).data, x ≠ '\n' := by decide
          exact hb c
        · exact hmem r hr c hcr
      · revert h4
        have hb : ∀ x ∈ ("]" : String).data, x ≠ '\n' := by decide
        exact hb c
  | .IndefiniteByteString strings, i, m, hg, hm, h => by
    have h' : Diag.estScalars Diag.estByteStr strings m 4 < m := h
    have hbytes : ∀ bs ∈ strings, ∀ b ∈ bs.data, b < 256 := by
      intro bs hbs
      have := List.all_eq_true.mp hg bs hbs
      simpa using this
    have htriv : Diag.isTrivial (.IndefiniteByteString strings) = true := by
      have hst := estItem_stable (.IndefiniteByteString strings) m 60 hm h
      simp only [Diag.isTrivial, hst, decide_eq_true_eq]
      omega
    have hre : Diag.renderItem ⟨.Pretty, .Base16, i⟩
          (.IndefiniteByteString strings)
        = Diag.containerFmt ⟨.Pretty, .Base16, i⟩ "(" ")" false true
            (strings.map (Diag.renderByteStr .Base16)) := by
      show Diag.containerFmt ⟨.Pretty, .Base16, i⟩ "(" ")" false
          (Diag.isTrivial (.IndefiniteByteString strings))
          (strings.map (Diag.renderByteStr .Base16)) = _
      rw [htriv]
    have hlen := estScalars_bound Diag.estByteStr (Diag.renderByteStr .Base16)
      strings m 4
      (fun bs hbs => (Diag.renderByteStr_bound bs (hbytes bs hbs)).1) h'
    have hs := sepJoin_length ", " (strings.map (Diag.renderByteStr .Base16))
    have hsep : (", " : String).length = 2 := rfl
    constructor
    · rw [hre, containerFmt_pretty_trivial]
      show _ ≤ Diag.estScalars Diag.estByteStr strings m 4
      simp only [String.length_append, hs, hsep, List.length_map,
        show ("(" : String).length = 1 from rfl,
        show (")" : String).length = 1 from rfl,
        show ((if (false : Bool) then ("" : String) else "_ ") : String)
            = "_ " from rfl,
        show ("_ " : String).length = 2 from rfl]
      omega
    · rw [hre, containerFmt_pretty_trivial]
      intro c hc
      simp only [String.data_append, List.mem_append] at hc
      rcases hc with ((h1 | h2) | h3) | h4
      · revert h1
        have hb : ∀ x ∈ ("(" : String).data, x ≠ '\n' := by decide
        exact hb c
      · revert h2
        have hb : ∀ x ∈ ((if (false : Bool) then ("" : String)
            else "_ ") : String).data, x ≠ '\n' := by decide
        exact hb c
      · rcases sepJoin_mem ", " _ c h3 with hsep' | ⟨r, hr, hcr⟩
        · revert hsep'
          have hb : ∀ x ∈ (", " : String).data, x ≠ '\n' := by decide
          exact hb c
        · rcases List.mem_map.mp hr with ⟨bs, hbs, rfl⟩
          exact (Diag.renderByteStr_bound bs (hbytes bs hbs)).2 c hcr
      · revert h4
        have hb : ∀ x ∈ (")" : String).data, x ≠ '\n' := by decide
        exact hb c
  | .IndefiniteTextString strings, i, m, hg, hm, h => by
    have h' : Diag.estScalars Diag.estTextStr strings m 4 < m := h
    have htexts : ∀ ts ∈ strings, Diag.goodText ts.data = true := by
      intro ts hts
      exact List.all_eq_true.mp hg ts hts
    have htriv : Diag.isTrivial (.IndefiniteTextString strings) = true := by
      have hst := estItem_stable (.IndefiniteTextString strings) m 60 hm h
      simp only [Diag.isTrivial, hst, decide_eq_true_eq]
      omega
    have hre : Diag.renderItem ⟨.Pretty, .Base16, i⟩
          (.IndefiniteTextString strings)
        = Diag.containerFmt ⟨.Pretty, .Base16, i⟩ "(" ")" false true
            (strings.map Diag.renderTextStr) := by
      show Diag.containerFmt ⟨.Pretty, .Base16, i⟩ "(" ")" false
          (Diag.isTrivial (.IndefiniteTextString strings))
          (strings.map Diag.renderTextStr) = _
      rw [htriv]
    have hlen := estScalars_bound Diag.estTextStr Diag.renderTextStr
      strings m 4
      (fun ts hts => (Diag.renderTextStr_bound ts (htexts ts hts)).1) h'
    have hs := sepJoin_length ", " (strings.map Diag.renderTextStr)
    have hsep : (", " : String).length = 2 := rfl
    constructor
    · rw [hre, containerFmt_pretty_trivial]
      show _ ≤ Diag.estScalars Diag.estTextStr strings m 4
      simp only [String.length_append, hs, hsep, List.length_map,
        show ("(" : String).length = 1 from rfl,
        show (")" : String).length = 1 from rfl,
        show ((if (false : Bool) then ("" : String) else "_ ") : String)
            = "_ " from rfl,
        show ("_ " : String).length = 2 from rfl]
      omega
    · rw [hre, containerFmt_pretty_trivial]
      intro c hc
      simp only [String.data_append, List.mem_append] at hc
      rcases hc with ((h1 | h2) | h3) | h4
      · revert h1
        have hb : ∀ x ∈ ("(" : String).data, x ≠ '\n' := by decide
        exact hb c
      · revert h2
        have hb : ∀ x ∈ ((if (false : Bool) then ("" : String)
            else "_ ") : String).data, x ≠ '\n' := by decide
        exact hb c
      · rcases sepJoin_mem ", " _ c h3 with hsep' | ⟨r, hr, hcr⟩
        · revert hsep'
          have hb : ∀ x ∈ (", " : String).data, x ≠ '\n' := by decide
          exact hb c
        · rcases List.mem_map.mp hr with ⟨ts, hts, rfl⟩
          exact (Diag.renderTextStr_bound ts (htexts ts hts)).2 c hcr
      · revert h4
        have hb : ∀ x ∈ (")" : String).data, x ≠ '\n' := by decide
        exact hb c

theorem renderList_bound : ∀ (items : List DataItem) (i m len : Nat),
    Diag.goodList items = true → m ≤ 60 → Diag.estList items m len < m →
    (((Diag.renderList ⟨.Pretty, .Base16, i⟩ items).map String.length).sum
        + 2 * items.length + len ≤ Diag.estList items m len)
    ∧ ∀ s ∈ Diag.renderList ⟨.Pretty, .Base16, i⟩ items,
        ∀ c ∈ s.data, c ≠ '\n'
  | [], i, m, len, _, _, _ => by
    constructor
    · simp [Diag.renderList, Diag.estList]
    · intro s hs; simp [Diag.renderList] at hs
  | item :: rest, i, m, len, hg, hm, h => by
    have hgi : Diag.good item = true ∧ Diag.goodList rest = true := by
      simpa [Diag.goodList, Bool.and_eq_true] using hg
    simp only [Diag.estList] at h ⊢
    by_cases hc : m ≤ len + Diag.estItem item (m - len) + 2
    · rw [if_pos hc] at h; exfalso; omega
    · rw [if_neg hc] at h
      rw [if_neg hc]
      have he : Diag.estItem item (m - len) < m - len := by omega
      have hm' : m - len ≤ 60 := by omega
      obtain ⟨h1, h2⟩ := renderItem_bound item i (m - len) hgi.1 hm' he
      obtain ⟨h3, h4⟩ := renderList_bound rest i m
        (len + Diag.estItem item (m - len) + 2) hgi.2 hm h
      constructor
      · show ((Diag.renderItem ⟨.Pretty, .Base16, i⟩ item
            :: Diag.renderList ⟨.Pretty, .Base16, i⟩ rest).map
              String.length).sum + 2 * (item :: rest).length + len ≤ _
        simp only [List.map_cons, List.sum_cons, List.length_cons]
        omega
      · intro s hs
        rcases List.mem_cons.mp hs with h' | h'
        · subst h'; exact h2
        · exact h4 s h'

end

/-- Claim C1 (code evaluation).  With an `Unknown` bitwidth the annotated-hex
encoder does *not* pick the narrowest representation at the type
boundaries: `integer_to_hex` compares with strict `<` against
`u8::max_value()` (resp. `u16`/`u32`), so value 255 — which fits in the
8-bit form `18 ff` — is emitted in the 16-bit form `19 00ff`; likewise
65535 gets the 32-bit form and 2^32-1 the 64-bit form, and the
byte-string length header has the same off-by-one.  This contradicts the
spec's "select the narrowest width that represents the argument
losslessly". -/
theorem c1_width_selection_off_by_one :
    Hex.integer_to_hex 255 .Unknown = "19 00ff # unsigned(255)"
    ∧ Hex.integer_to_hex 255 .Eight = "18 ff # unsigned(255)"
    ∧ Hex.integer_to_hex 65535 .Unknown = "1a 0000ffff # unsigned(65535)"
    ∧ Hex.integer_to_hex 4294967295 .Unknown
        = "1b 00000000ffffffff # unsigned(4294967295)"
    ∧ Hex.negative_to_hex 255 .Unknown = "39 00ff # negative(255)"
    ∧ Hex.selectWidth 255 = .Sixteen
    ∧ Hex.selectWidth 254 = .Eight := by
  refine ⟨rfl, rfl, rfl, rfl, rfl, rfl, rfl⟩

/-- Claim C4 (code evaluation).  `simple_to_hex` emits `e0|value` below 24
and `f8 value` from 24 up, names 20/21/22/23, and ends with `simple(N)`
— but its "reserved" arm is the inclusive Rust range `Simple(24...32)`,
so value 32 is labelled `reserved` although the spec (and RFC 7049)
assign `reserved` to 24..31 only and `unassigned` from 32 up. -/
theorem c4_simple_reserved_range :
    Hex.simple_to_hex 20 = "f4 # false, simple(20)"
    ∧ Hex.simple_to_hex 21 = "f5 # true, simple(21)"
    ∧ Hex.simple_to_hex 22 = "f6 # null, simple(22)"
    ∧ Hex.simple_to_hex 23 = "f7 # undefined, simple(23)"
    ∧ Hex.simple_to_hex 0 = "e0 # unassigned, simple(0)"
    ∧ Hex.simple_to_hex 24 = "f8 18 # reserved, simple(24)"
    ∧ Hex.simple_to_hex 31 = "f8 1f # reserved, simple(31)"
    ∧ Hex.simple_to_hex 32 = "f8 20 # reserved, simple(32)"
    ∧ Hex.simple_to_hex 33 = "f8 21 # unassigned, simple(33)" := by
  refine ⟨rfl, rfl, rfl, rfl, rfl, rfl, rfl, rfl, rfl⟩

/-- Claim C8.  `to_hex` of the empty definite byte string with bitwidth
`Zero` is exactly the two newline-terminated lines
`40  # bytes(0)` and `    # ""`. -/
theorem c8_empty_bytestring_hex :
    Hex.to_hex (.ByteString [] (some .Zero))
      = some "40  # bytes(0)\n    # \"\"\n" := by
  show Hex.bytestring_to_hex [] (some .Zero) = _
  unfold Hex.bytestring_to_hex
  simp only [Hex.chunks16]
  rfl

/-- Claim C9.  `Value::to_hex` succeeds (returns `Ok`, i.e. `some`) exactly
on `Integer`, `Negative`, definite-length `ByteString`, and `Simple`
inputs; on every other variant — and on a `ByteString` whose bitwidth
option is `None` — it panics (`none`). -/
theorem c9_to_hex_partiality :
    (∀ v : Value, (Hex.to_hex v).isSome = Hex.ahexSupported v)
    ∧ (∀ data, Hex.to_hex (.ByteString data none) = none)
    ∧ (∀ bw, Hex.to_hex (.Float bw) = none)
    ∧ (∀ s bw, Hex.to_hex (.TextString s bw) = none)
    ∧ (∀ data bw, Hex.to_hex (.Array data bw) = none)
    ∧ (∀ data bw, Hex.to_hex (.Map data bw) = none)
    ∧ (∀ t bw v, Hex.to_hex (.Tag t bw v) = none)
    ∧ (∀ ss, Hex.to_hex (.IndefiniteByteString ss) = none)
    ∧ (∀ ss, Hex.to_hex (.IndefiniteTextString ss) = none) := by
  refine ⟨?_, fun _ => rfl, fun _ => rfl, fun _ _ => rfl, fun _ _ => rfl,
    fun _ _ => rfl, fun _ _ _ => rfl, fun _ => rfl, fun _ => rfl⟩
  intro v
  cases v with
  | ByteString data bitwidth =>
    cases bitwidth <;> simp [Hex.to_hex, Hex.ahexSupported, Hex.bytestring_to_hex]
  | _ => rfl

/-- Claim C10.  The diagnostic `Float` renderer appends the faint width
suffix (`_1`/`_2`/`_3` for half/single/double) after *every* rendering,
including the special-case literals `NaN`, `Infinity` and `-Infinity`
(e.g. a half-precision NaN renders as `NaN_1`). -/
theorem c10_float_suffix_on_specials :
    (∀ v bw, ∃ body, Diag.renderFloat v bw = body ++ Diag.widthSuffixF bw)
    ∧ (∀ bw, Diag.renderFloat .nan bw = "NaN" ++ Diag.widthSuffixF bw)
    ∧ (∀ bw, Diag.renderFloat (.inf false) bw
        = "Infinity" ++ Diag.widthSuffixF bw)
    ∧ (∀ bw, Diag.renderFloat (.inf true) bw
        = "-Infinity" ++ Diag.widthSuffixF bw)
    ∧ Diag.renderFloat .nan .Sixteen = "NaN_1"
    ∧ Diag.renderFloat (.inf false) .ThirtyTwo = "Infinity_2"
    ∧ Diag.renderFloat (.inf true) .SixtyFour = "-Infinity_3"
    ∧ Diag.widthSuffixF .Sixteen = "_1"
    ∧ Diag.widthSuffixF .ThirtyTwo = "_2"
    ∧ Diag.widthSuffixF .SixtyFour = "_3"
    ∧ (∀ ctx bw, Diag.renderItem ctx (.Float .nan bw)
        = "NaN" ++ Diag.widthSuffixF bw) := by
  refine ⟨fun v bw => ⟨_, rfl⟩, fun bw => rfl, fun bw => rfl, ?_,
    rfl, rfl, rfl, rfl, rfl, rfl, fun ctx bw => rfl⟩
  intro bw
  rfl

/-- Claim C6.  The diagnostic encoder prints a `Negative` as the decimal
representation of `-1 - value` (computed exactly — for any `u64` value,
including `-18446744073709551616` at `value = 2^64-1`), followed by the
width suffix `_0`/`_1`/`_2`/`_3` exactly for
`Eight`/`Sixteen`/`ThirtyTwo`/`SixtyFour`. -/
theorem c6_negative_rendering (value : Nat) (bitwidth : IntegerWidth)
    (h : value < 2 ^ 64) :
    Diag.renderNegative value bitwidth
        = intDec (-1 - (value : Int)) ++ Diag.widthSuffixI bitwidth
    ∧ Diag.renderNegative value bitwidth
        = "-" ++ Nat.repr (value + 1) ++ Diag.widthSuffixI bitwidth
    ∧ Diag.widthSuffixI .Eight = "_0"
    ∧ Diag.widthSuffixI .Sixteen = "_1"
    ∧ Diag.widthSuffixI .ThirtyTwo = "_2"
    ∧ Diag.widthSuffixI .SixtyFour = "_3"
    ∧ Diag.widthSuffixI .Unknown = ""
    ∧ Diag.widthSuffixI .Zero = "" := by
  refine ⟨rfl, ?_, rfl, rfl, rfl, rfl, rfl, rfl⟩
  have hneg : (-1 - (value : Int)) < 0 := by omega
  have habs : (-1 - (value : Int)).natAbs = value + 1 := by omega
  unfold Diag.renderNegative intDec
  rw [if_pos hneg, habs, String.append_assoc]

/-- Claim C2 (counterexample).  The length estimator counts a text string
as its byte length plus 2, but the renderer writes 2 characters for each
`"` (the backslash escape).  An array holding a 50-quote text string is
judged trivial (estimate 58 < 60) yet pretty-renders as a single line of
104 characters. -/
theorem c2_counterexample :
    Diag.isTrivial (.Array
        [.TextString ⟨String.mk (List.replicate 50 '"'), .Zero⟩]
        (some .Zero)) = true
    ∧ (∀ c ∈ (Diag.pretty_diag (.Array
        [.TextString ⟨String.mk (List.replicate 50 '"'), .Zero⟩]
        (some .Zero))).data, c ≠ '\n')
    ∧ (Diag.pretty_diag (.Array
        [.TextString ⟨String.mk (List.replicate 50 '"'), .Zero⟩]
        (some .Zero))).length = 104
    ∧ ¬ (Diag.pretty_diag (.Array
        [.TextString ⟨String.mk (List.replicate 50 '"'), .Zero⟩]
        (some .Zero))).length < 60 := by
  refine ⟨by decide, by decide, by decide, by decide⟩

/-- Claim C2 (amended).  For every DataItem judged trivial by the length
estimator that is built only from Integers, Simples, ByteStrings of
bytes (displayed in the default Base16 encoding), TextStrings free of
`"`, `\` and newline characters, Arrays, and indefinite strings — i.e.
containing no Map, Negative, Float or Tag, whose renderings can exceed
their estimates — the pretty-layout rendering is a single line (no
newline) of fewer than 60 characters. -/
theorem c2_trivial_line_bound (item : DataItem)
    (hg : Diag.good item = true) (ht : Diag.isTrivial item = true) :
    (∀ c ∈ (Diag.pretty_diag item).data, c ≠ '\n')
    ∧ (Diag.pretty_diag item).length < 60 := by
  have h60 : Diag.estItem item 60 < 60 := by
    simpa [Diag.isTrivial, decide_eq_true_eq] using ht
  obtain ⟨h1, h2⟩ := renderItem_bound item 0 60 hg (le_refl 60) h60
  exact ⟨h2, lt_of_le_of_lt h1 h60⟩

/-- Witness for the amended C2 on a concrete trivial array. -/
theorem c2_trivial_line_bound_witness :
    Diag.good (.Array [.Integer 1 .Zero, .TextString ⟨"hi", .Zero⟩]
        (some .Zero)) = true
    ∧ Diag.isTrivial (.Array [.Integer 1 .Zero, .TextString ⟨"hi", .Zero⟩]
        (some .Zero)) = true
    ∧ ((∀ c ∈ (Diag.pretty_diag (.Array
          [.Integer 1 .Zero, .TextString ⟨"hi", .Zero⟩]
          (some .Zero))).data, c ≠ '\n')
       ∧ (Diag.pretty_diag (.Array
          [.Integer 1 .Zero, .TextString ⟨"hi", .Zero⟩]
          (some .Zero))).length < 60) :=
  ⟨by decide, by decide,
   c2_trivial_line_bound
     (.Array [.Integer 1 .Zero, .TextString ⟨"hi", .Zero⟩] (some .Zero))
     (by decide) (by decide)⟩

/-- Claim C5 (counterexample).  The claim "in compact layout … elements
separated by `, ` (comma+space)" is false: in compact layout the
separator is `,` alone (the space is written only in pretty layout for
trivial containers), so `[1, 2]` compact-renders as `"[1,2]"`. -/
theorem c5_counterexample :
    Diag.compact_diag (.Array [.Integer 1 .Zero, .Integer 2 .Zero] (some .Zero))
        = "[1,2]"
    ∧ Diag.compact_diag (.Array [.Integer 1 .Zero, .Integer 2 .Zero] (some .Zero))
        ≠ "[1, 2]" :=
  ⟨rfl, by decide⟩

/-- Claim C5 (amended).  For trivial containers in pretty layout the
diagnostic encoder separates consecutive container elements by `, `
(comma+space); in compact layout it separates them by `,` alone, with
no space. -/
theorem c5_separators :
    (∀ (e : Encoding) (i : Nat) (bgn fin : String) (d t : Bool) rendered,
      Diag.containerFmt ⟨.Compact, e, i⟩ bgn fin d t rendered
        = bgn ++ (if d then "" else "_") ++ sepJoin "," rendered ++ fin)
    ∧ (∀ (e : Encoding) (i : Nat) (bgn fin : String) (d : Bool) rendered,
      Diag.containerFmt ⟨.Pretty, e, i⟩ bgn fin d true rendered
        = bgn ++ (if d then "" else "_ ") ++ sepJoin ", " rendered ++ fin)
    ∧ (∀ (e : Encoding) (i : Nat) data bw,
      Diag.renderItem ⟨.Compact, e, i⟩ (.Array data bw)
        = "[" ++ (if bw.isSome then "" else "_")
          ++ sepJoin ","
              (Diag.renderList
                (Diag.bump ⟨.Compact, e, i⟩ (Diag.isTrivial (.Array data bw)))
                data)
          ++ "]") := by
  refine ⟨containerFmt_compact, containerFmt_pretty_trivial, ?_⟩
  intro e i data bw
  show Diag.containerFmt ⟨.Compact, e, i⟩ "[" "]" bw.isSome
      (Diag.isTrivial (.Array data bw))
      (Diag.renderList (Diag.bump ⟨.Compact, e, i⟩
        (Diag.isTrivial (.Array data bw))) data) = _
  rw [containerFmt_compact]

/-- Claim C7.  A nontrivial container in pretty layout puts each element on
its own line indented by the enclosing indentation plus 4 spaces, emits a
trailing comma after the last element, and puts the closing delimiter on
a new line at the enclosing indentation; arrays and maps render their
elements at the bumped indentation. -/
theorem c7_pretty_nontrivial_layout :
    (∀ (e : Encoding) (i : Nat) (bgn fin : String) (d : Bool)
        (r : String) (rs : List String),
      Diag.containerFmt ⟨.Pretty, e, i⟩ bgn fin d false (r :: rs)
        = bgn ++ (if d then "" else "_")
          ++ lineItems (spaces (i + 4)) (r :: rs)
          ++ ("\n" ++ spaces i) ++ fin)
    ∧ (∀ (e : Encoding) (i : Nat) data bw,
      Diag.isTrivial (.Array data bw) = false →
        Diag.renderItem ⟨.Pretty, e, i⟩ (.Array data bw)
          = Diag.containerFmt ⟨.Pretty, e, i⟩ "[" "]" bw.isSome false
              (Diag.renderList ⟨.Pretty, e, i + 4⟩ data))
    ∧ (∀ (e : Encoding) (i : Nat) data bw,
      Diag.isTrivial (.Map data bw) = false →
        Diag.renderItem ⟨.Pretty, e, i⟩ (.Map data bw)
          = Diag.containerFmt ⟨.Pretty, e, i⟩ "\x7b" "\x7d" bw.isSome false
              (Diag.renderPairs ⟨.Pretty, e, i + 4⟩ data)) := by
  refine ⟨containerFmt_pretty_nontrivial, ?_, ?_⟩
  · intro e i data bw h
    show Diag.containerFmt ⟨.Pretty, e, i⟩ "[" "]" bw.isSome
        (Diag.isTrivial (.Array data bw))
        (Diag.renderList (Diag.bump ⟨.Pretty, e, i⟩
          (Diag.isTrivial (.Array data bw))) data) = _
    rw [h]
    rfl
  · intro e i data bw h
    show Diag.containerFmt ⟨.Pretty, e, i⟩ "\x7b" "\x7d" bw.isSome
        (Diag.isTrivial (.Map data bw))
        (Diag.renderPairs (Diag.bump ⟨.Pretty, e, i⟩
          (Diag.isTrivial (.Map data bw))) data) = _
    rw [h]
    rfl

/-- Witness for C7: a concrete nontrivial array (one 60-character text
string) rendered in pretty layout. -/
theorem c7_pretty_nontrivial_layout_witness :
    Diag.isTrivial (.Array
        [.TextString ⟨String.mk (List.replicate 60 'a'), .Zero⟩]
        (some .Zero)) = false
    ∧ Diag.renderItem ⟨.Pretty, .Base16, 0⟩
        (.Array [.TextString ⟨String.mk (List.replicate 60 'a'), .Zero⟩]
          (some .Zero))
      = Diag.containerFmt ⟨.Pretty, .Base16, 0⟩ "[" "]"
          (some IntegerWidth.Zero).isSome false
          (Diag.renderList ⟨.Pretty, .Base16, 0 + 4⟩
            [.TextString ⟨String.mk (List.replicate 60 'a'), .Zero⟩]) :=
  ⟨by decide,
   c7_pretty_nontrivial_layout.2.1 .Base16 0
     [.TextString ⟨String.mk (List.replicate 60 'a'), .Zero⟩]
     (some .Zero) (by decide)⟩

/-- Claim C3.  The byte-string display encoding is Base16 in the root
context and is switched to Base64Url / Base64 / Base16 exactly when
descending through the value of a tag 21 / 22 / 23; any other tag passes
the enclosing encoding through unchanged.  Byte strings render with the
context's encoding, text strings ignore it, and a sibling of a tagged
value keeps the enclosing encoding (last conjunct: the sibling byte
string renders with the enclosing `e` although its sibling sits under
tag 22). -/
theorem c3_encoding_switch_scope :
    (∀ l, (Diag.Ctx.new l).encoding = .Base16)
    ∧ (∀ (ctx : Diag.Ctx) bw v,
        Diag.renderItem ctx (.Tag 21 bw v)
          = Nat.repr 21 ++ Diag.widthSuffixI bw ++ "("
            ++ Diag.renderItem { ctx with encoding := .Base64Url } v ++ ")")
    ∧ (∀ (ctx : Diag.Ctx) bw v,
        Diag.renderItem ctx (.Tag 22 bw v)
          = Nat.repr 22 ++ Diag.widthSuffixI bw ++ "("
            ++ Diag.renderItem { ctx with encoding := .Base64 } v ++ ")")
    ∧ (∀ (ctx : Diag.Ctx) bw v,
        Diag.renderItem ctx (.Tag 23 bw v)
          = Nat.repr 23 ++ Diag.widthSuffixI bw ++ "("
            ++ Diag.renderItem { ctx with encoding := .Base16 } v ++ ")")
    ∧ (∀ (ctx : Diag.Ctx) tag bw v, tag ≠ 21 → tag ≠ 22 → tag ≠ 23 →
        Diag.renderItem ctx (.Tag tag bw v)
          = Nat.repr tag ++ Diag.widthSuffixI bw ++ "("
            ++ Diag.renderItem ctx v ++ ")")
    ∧ (∀ (l : Layout) (e e' : Encoding) (i : Nat) (ts : TextStr),
        Diag.renderItem ⟨l, e', i⟩ (.TextString ts)
          = Diag.renderItem ⟨l, e, i⟩ (.TextString ts))
    ∧ (∀ (l : Layout) (e : Encoding) (i : Nat) (bs : ByteStr),
        Diag.renderItem ⟨l, e, i⟩ (.ByteString bs) = Diag.renderByteStr e bs)
    ∧ (∀ (e : Encoding) (i : Nat) (w1 w2 : IntegerWidth) (bs sib : ByteStr),
        Diag.renderItem ⟨.Compact, e, i⟩
            (.Array [.Tag 22 w1 (.ByteString bs), .ByteString sib]
              (some w2))
          = "[22" ++ Diag.widthSuffixI w1 ++ "(b64'"
            ++ Diag.b64Encode false bs.data ++ "'),"
            ++ Diag.renderByteStr e sib ++ "]") := by
  refine ⟨fun _ => rfl, fun ctx bw v => rfl, fun ctx bw v => rfl,
    fun ctx bw v => rfl, ?_, fun l e e' i ts => rfl, fun l e i bs => rfl, ?_⟩
  · intro ctx tag bw v h21 h22 h23
    simp only [Diag.renderItem, Diag.tagEncodedBase64Url,
      Diag.tagEncodedBase64, Diag.tagEncodedBase16, if_neg h21, if_neg h22,
      if_neg h23]
  · intro e i w1 w2 bs sib
    show Diag.containerFmt ⟨.Compact, e, i⟩ "[" "]" (some w2).isSome
        (Diag.isTrivial (.Array
          [.Tag 22 w1 (.ByteString bs), .ByteString sib] (some w2)))
        (Diag.renderList
          (Diag.bump ⟨.Compact, e, i⟩ (Diag.isTrivial (.Array
            [.Tag 22 w1 (.ByteString bs), .ByteString sib] (some w2))))
          [.Tag 22 w1 (.ByteString bs), .ByteString sib]) = _
    rw [containerFmt_compact]
    apply str_ext
    simp [Diag.renderList, Diag.renderItem, Diag.renderByteStr, sepJoin,
      Diag.tagEncodedBase64Url, Diag.tagEncodedBase64, Diag.bump,
      String.data_append, List.append_assoc,
      show Nat.repr 22 = "22" from rfl]

/-- Witness for C3: a tag other than 21/22/23 (here tag 2) leaves the
display encoding unchanged. -/
theorem c3_encoding_switch_scope_witness :
    ((2 : Nat) ≠ 21 ∧ (2 : Nat) ≠ 22 ∧ (2 : Nat) ≠ 23)
    ∧ Diag.renderItem ⟨.Compact, .Base16, 0⟩
        (.Tag 2 .Zero (.ByteString ⟨[1, 2], .Zero⟩))
      = Nat.repr 2 ++ Diag.widthSuffixI .Zero ++ "("
        ++ Diag.renderItem ⟨.Compact, .Base16, 0⟩ (.ByteString ⟨[1, 2], .Zero⟩)
        ++ ")" :=
  ⟨⟨by decide, by decide, by decide⟩,
   c3_encoding_switch_scope.2.2.2.2.1 ⟨.Compact, .Base16, 0⟩ 2 .Zero
     (.ByteString ⟨[1, 2], .Zero⟩) (by decide) (by decide) (by decide)⟩

/-- Witness for C6 at the extreme point `value = 2^64 - 1`. -/
theorem c6_negative_rendering_witness :
    (2 ^ 64 - 1 : Nat) < 2 ^ 64
    ∧ Diag.renderNegative (2 ^ 64 - 1) .SixtyFour
        = "-" ++ Nat.repr (2 ^ 64 - 1 + 1) ++ Diag.widthSuffixI .SixtyFour :=
  ⟨by norm_num, (c6_negative_rendering (2 ^ 64 - 1) .SixtyFour (by norm_num)).2.1⟩

end CborDiag
